import Mathlib

/-!
Verification development for the `ai-data-analyst` repository
(`ai_data_visualisation_agent.py`).

The Python module is shallowly embedded below:

* `extract_python_code` models the regex-based code-fence extractor
  (patterns `³python\s*(.*?)³` with DOTALL+IGNORECASE, then `³\s*(.*?)³`
  with DOTALL, then the `str.replace`/`str.strip` fallback), where `³`
  stands for a triple backtick.  Text is modelled as `List Char`;
  `re.search` of a pattern that begins with a literal is modelled by the
  leftmost occurrence of that literal followed by the nearest closing
  fence, which coincides with the regex semantics because the capture
  group is lazy and `\s*` only consumes non-backtick characters.
* `runAttempts` models the three-attempt retry loop of `chat_with_llm`
  (token ladder `[2000, 500, 200]`, the `402` branch, the `429`/`50`
  model-switch branch, and the re-raise branch).  The chat-completion
  client is an oracle `Nat → String → Nat → CallResult` receiving the
  attempt index, the current model name and the `max_tokens` value; the
  function also returns the trace of attempted calls.
* `code_interpret` models the sandbox pass-through, with the sandbox
  `run_code` call abstracted as an oracle `String → ExecOutcome`.
* `display_visualization_results` models the renderer over duck-typed
  result objects, with `base64.b64decode`/`Image.open` abstracted as an
  oracle `String → Option String` (`none` = decoding raised).
* `system_prompt` / `columns_info` model the prompt builder, with a
  dataframe column modelled by its name, its dtype string, and the
  `str()` images of its entries (`none` = null entry).
-/

/-! ### Generic character-list utilities (Python `str` helpers) -/

/-- Characters treated as whitespace by Python `str.strip()` (ASCII part). -/
def pyIsSpace (c : Char) : Bool :=
  c = ' ' || c = '\t' || c = '\n' || c = '\r' || c = '\x0b' || c = '\x0c'

/-- Remove the maximal trailing run of characters satisfying `p`. -/
def dropTrailing (p : Char → Bool) : List Char → List Char
  | [] => []
  | c :: rest =>
    let r := dropTrailing p rest
    if r.isEmpty && p c then [] else c :: r

/-- Python `str.strip()`: drop leading and trailing whitespace. -/
def pyStrip (l : List Char) : List Char :=
  dropTrailing pyIsSpace (l.dropWhile pyIsSpace)

/-- Python `str.replace(needle, repl)`: replace the non-overlapping
occurrences of `needle`, scanning left to right.  (Only used with a
non-empty `needle`, as in the source.) -/
def pyReplace (needle repl : List Char) : List Char → List Char
  | [] => []
  | c :: rest =>
    if needle.isPrefixOf (c :: rest) then
      repl ++ pyReplace needle repl (rest.drop (needle.length - 1))
    else
      c :: pyReplace needle repl rest
termination_by l => l.length
decreasing_by
  · simp only [List.length_drop, List.length_cons]
    omega
  · simp only [List.length_cons]
    omega

/-- Index of the leftmost occurrence of `pat` (Python `str.find`,
`none` when absent). -/
def findSubIdx (pat : List Char) : List Char → Option Nat
  | [] => if pat.isPrefixOf ([] : List Char) then some 0 else none
  | c :: rest =>
    if pat.isPrefixOf (c :: rest) then some 0
    else (findSubIdx pat rest).map (· + 1)

/-- Python `needle in haystack` for strings (substring containment). -/
def occursIn (pat l : List Char) : Bool :=
  (findSubIdx pat l).isSome

/-- Python `"\n".join`. -/
def joinLines : List (List Char) → List Char
  | [] => []
  | [l] => l
  | l :: ls => l ++ '\n' :: joinLines ls

/-- Python `str.split("\n")`. -/
def splitLinesC : List Char → List (List Char)
  | [] => [[]]
  | c :: rest =>
    if c = '\n' then [] :: splitLinesC rest
    else
      match splitLinesC rest with
      | [] => [[c]]
      | l :: ls => (c :: l) :: ls

/-! ### `extract_python_code` (source lines 33-49) -/

/-- The closing/opening triple-backtick fence. -/
def fence : List Char := "\x60\x60\x60".toList

/-- The `³python` opener of pattern 1 (regex matched case-insensitively). -/
def pyFence : List Char := "\x60\x60\x60python".toList

/-- Case folding used to model `re.IGNORECASE` (ASCII lowering, as no
other character lowercases onto the letters of `python`). -/
def lowerChars (l : List Char) : List Char := l.map Char.toLower

/-- Fallback branch (source line 48): remove every `³python`, then every
`³`, then strip. -/
def fallbackExtract (t : List Char) : List Char :=
  pyStrip (pyReplace fence [] (pyReplace pyFence [] t))

/-- Pattern 2 (source line 41): first generic `³ … ³` block, else the
fallback. -/
def genericExtract (t : List Char) : List Char :=
  match findSubIdx fence t with
  | some p =>
    match findSubIdx fence (t.drop (p + fence.length)) with
    | some q => pyStrip ((t.drop (p + fence.length)).take q)
    | none => fallbackExtract t
  | none => fallbackExtract t

/-- `extract_python_code` on character lists: pattern 1 (case-insensitive
`³python … ³`), else pattern 2, else the fallback. -/
def extractCore (t : List Char) : List Char :=
  match findSubIdx (lowerChars pyFence) (lowerChars t) with
  | some p =>
    match findSubIdx fence (t.drop (p + pyFence.length)) with
    | some q => pyStrip ((t.drop (p + pyFence.length)).take q)
    | none => genericExtract t
  | none => genericExtract t

/-- `extract_python_code` (source lines 33-49). -/
def extract_python_code (s : String) : String :=
  String.mk (extractCore s.toList)

/-- A case-insensitive occurrence of the `³python` opener at index `i`. -/
@[reducible] def openerCIAt (t : List Char) (i : Nat) : Prop :=
  (lowerChars pyFence).isPrefixOf ((lowerChars t).drop i) = true

/-- An occurrence of the `³` fence at index `j`. -/
@[reducible] def fenceAt (t : List Char) (j : Nat) : Prop :=
  fence.isPrefixOf (t.drop j) = true

/-! ### The retry ladder of `chat_with_llm` (source lines 99-158) -/

/-- Outcome of one `client.chat.completions.create` call: the response
content, or the text of the raised exception. -/
inductive CallResult where
  | ok (content : String)
  | err (msg : String)
deriving DecidableEq

/-- How the `for`-loop over the token ladder ends: `success` with the
response and the current model, `exhausted` after all attempts were
consumed (`llm_response is None`), or `raised` when an error is
re-raised out of the loop (caught by the outer `except`). -/
inductive LoopResult where
  | success (content : String) (model : String)
  | exhausted (model : String)
  | raised (msg : String) (model : String)
deriving DecidableEq

/-- One attempted client call: the attempt index (from `enumerate`), the
model used and the `max_tokens` limit passed. -/
structure AttemptRec where
  idx : Nat
  model : String
  tokens : Nat
deriving DecidableEq

/-- The `token_attempts` ladder (source line 106). -/
def token_attempts : List Nat := [2000, 500, 200]

/-- The free fallback model of the rate-limit branch (source line 135). -/
def geminiFree : String := "google/gemini-2.0-flash-exp:free"

/-- Error message of source line 147. -/
def failedMsg : String := "Failed to generate LLM response."

/-- Python `"402" in error_msg` (source line 128). -/
def contains402 (m : String) : Bool := occursIn "402".toList m.toList

/-- Python `"429" in error_msg or "50" in error_msg` (source line 133). -/
def contains429or50 (m : String) : Bool :=
  occursIn "429".toList m.toList || occursIn "50".toList m.toList

/-- The retry loop (source lines 109-143) over the remaining
`(index, token_limit)` pairs, threading `st.session_state.model_name`,
and recording the trace of client calls.  `create` is the oracle for
`client.chat.completions.create`. -/
def runAttempts (create : Nat → String → Nat → CallResult) :
    List (Nat × Nat) → String → LoopResult × List AttemptRec
  | [], model => (LoopResult.exhausted model, [])
  | (i, tok) :: rest, model =>
    match create i model tok with
    | CallResult.ok content => (LoopResult.success content model, [⟨i, model, tok⟩])
    | CallResult.err msg =>
      if contains402 msg = true ∧ i < token_attempts.length - 1 then
        let r := runAttempts create rest model
        (r.1, ⟨i, model, tok⟩ :: r.2)
      else if contains429or50 msg = true ∧ model ≠ geminiFree then
        let r := runAttempts create rest geminiFree
        (r.1, ⟨i, model, tok⟩ :: r.2)
      else
        (LoopResult.raised msg model, [⟨i, model, tok⟩])

/-- The full ladder: `for i, token_limit in enumerate(token_attempts)`
starting from the session's current model. -/
def runLadder (create : Nat → String → Nat → CallResult) (m₀ : String) :
    LoopResult × List AttemptRec :=
  runAttempts create token_attempts.enum m₀

/-! ### `code_interpret` (source lines 18-31) -/

/-- A duck-typed execution-result object (`e2b` `Result`): the fields a
result may or may not carry; `none` models an absent attribute and an
empty string models a falsy one. -/
structure ResultObj where
  png : Option String
  data : Option String
  text : Option String
deriving DecidableEq

/-- Outcome of `e2b_code_interpreter.run_code(code)`: an exception, or an
`Execution` value with its `error` field and its `results` list. -/
inductive ExecOutcome where
  | raises (msg : String)
  | completed (error : Option String) (results : List ResultObj)
deriving DecidableEq

/-- `code_interpret` (source lines 18-31): `None` when the sandbox call
raises or the execution reports an error, otherwise the results list
unchanged. -/
def code_interpret (sandbox : String → ExecOutcome) (code : String) :
    Option (List ResultObj) :=
  match sandbox code with
  | ExecOutcome.raises _ => none
  | ExecOutcome.completed error results =>
    if error.isSome then none else some results

/-! ### `display_visualization_results` (source lines 173-201) -/

/-- The UI actions the renderer can emit. -/
inductive RenderAction where
  | warning
  | header
  | image (png : String)
  | imageError
  | table (data : String)
  | textOut (t : String)
deriving DecidableEq

/-- Python truthiness of `hasattr(r, f) and r.f` for a string field. -/
def truthyOpt : Option String → Bool
  | some s => !s.isEmpty
  | none => false

/-- Rendering of a single result object (source lines 184-201); `decode`
abstracts `base64.b64decode` + `Image.open`, `none` meaning the decoding
raised (source lines 191-192). -/
def renderOne (decode : String → Option String) (r : ResultObj) :
    List RenderAction :=
  if truthyOpt r.png then
    match decode (r.png.getD "") with
    | some img => [RenderAction.image img]
    | none => [RenderAction.imageError]
  else if truthyOpt r.data then [RenderAction.table (r.data.getD "")]
  else if truthyOpt r.text then [RenderAction.textOut (r.text.getD "")]
  else []

/-- `display_visualization_results` (source lines 173-201). -/
def display_visualization_results (decode : String → Option String)
    (code_results : Option (List ResultObj)) : List RenderAction :=
  match code_results with
  | none => [RenderAction.warning]
  | some [] => [RenderAction.warning]
  | some rs => RenderAction.header :: rs.flatMap (renderOne decode)

/-! ### The prompt builder of `chat_with_llm` (source lines 54-97) -/

/-- A dataframe column: its name, the `str` image of its dtype, and the
`str` images of its entries (`none` for a null entry).  Column names are
unique because the dataframe comes from `pd.read_csv`, so positional
modelling is faithful. -/
structure Column where
  name : String
  dtype : String
  values : List (Option String)
deriving DecidableEq

/-- `sample_val` (source line 58): the first non-null entry, or `"N/A"`
when the column has none. -/
def sample_val (c : Column) : List Char :=
  match (c.values.filterMap id).head? with
  | some v => v.toList
  | none => "N/A".toList

/-- One entry of `columns_list` (source line 59):
`- {col} ({dtype}) | Sample: '{str(sample_val)[:50]}...'`. -/
def colLine (c : Column) : List Char :=
  "- ".toList ++ c.name.toList ++ " (".toList ++ c.dtype.toList
    ++ ") | Sample: \x27".toList ++ (sample_val c).take 50 ++ "...\x27".toList

/-- `columns_info = "\n".join(columns_list)` (source line 61). -/
def columns_info (cols : List Column) : List Char :=
  joinLines (cols.map colLine)

/-- Literal prompt text before the first `{dataset_path}` splice. -/
def sysPromptA : String :=
  "You\x27re a Python data scientist and visualization expert.\n\nThe dataset is available at path \x27"

/-- Literal prompt text between `{dataset_path}` and `{columns_info}`. -/
def sysPromptB : String := "\x27.\n\nAvailable Columns:\n"

/-- Literal prompt text between `{columns_info}` and the second
`{dataset_path}` splice. -/
def sysPromptC : String :=
  "\n\nYour task is to:\n1. Load the dataset using pandas: df = pd.read_csv(\x27"

/-- Literal prompt text after the second `{dataset_path}` splice. -/
def sysPromptD : String :=
  "\x27)\n2. Analyze the data based on the user\x27s question\n3. Create appropriate visualizations using matplotlib or seaborn\n4. Use plt.tight_layout() and plt.savefig() to save plots\n\nIMPORTANT:\n- USE ONLY the columns listed above. Do not invent column names.\n- Write complete, executable Python code\n- Always import: pandas, matplotlib.pyplot, seaborn, numpy\n- Use matplotlib (not plotly) for all charts\n- SAFETY: Check \x60if not result.empty:\x60 before plotting/indexing! Print \"No data found\" if empty.\n- DATA CLEANING:\n  - Cast columns to string before \x60.str\x60 ops: \x60df[\x27c\x27]=df[\x27c\x27].astype(str)\x60.\n  - Clean Lists: \x60df[\x27c\x27]=df[\x27c\x27].str.replace(r\x27[\\[\\]\"\\\x27\\\x27]\x27,\x27\x27,regex=True).str.split(\x27,\x27).explode()\x60\n  - Filter: Remove \x27nan\x27, empty, len<2.\n- OUTPUT RULES:\n  - **DEFAULT:** Generate Table (\x60results_df\x60) or PRINT(). **NO CHARTS** unless asked.\n  - If user wants Chart: \x60sns.set_theme(style=\"whitegrid\")\x60, \x60plt.figure(figsize=(10,6))\x60. Concise inputs.\n  - If answer is a TABLE:\n    - Create a pandas DataFrame named \x27results_df\x27\n    - Limit to top 15 rows\n    - Round numeric columns to 2 decimal places\n\nProvide ONLY the Python code wrapped in \x60\x60\x60python code blocks.\nIf you create a plot, save it as \x27plot.png\x27.\nIf you create a table, ensure it is in a variable named \x27results_df\x27.\n"

/-- `system_prompt` (source lines 63-97), as a character list. -/
def system_prompt (dataset_path : String) (cols : List Column) : List Char :=
  sysPromptA.toList ++ dataset_path.toList ++ sysPromptB.toList
    ++ columns_info cols ++ sysPromptC.toList ++ dataset_path.toList
    ++ sysPromptD.toList

/-! ### `chat_with_llm` (source lines 51-158) -/

/-- The client-call oracle of a `chat_with_llm` run: the messages of every
attempt are the fixed system prompt and user message, so the oracle
receives them once, and then the attempt index, current model and
`max_tokens` of each call. -/
def chatCall (create₀ : List Char → String → Nat → String → Nat → CallResult)
    (dataset_path : String) (cols : List Column) (user_message : String) :
    Nat → String → Nat → CallResult :=
  create₀ (system_prompt dataset_path cols) user_message

/-- The retry loop as run inside `chat_with_llm`. -/
def chatLoop (create₀ : List Char → String → Nat → String → Nat → CallResult)
    (dataset_path : String) (cols : List Column) (user_message : String)
    (m₀ : String) : LoopResult × List AttemptRec :=
  runLadder (chatCall create₀ dataset_path cols user_message) m₀

/-- `chat_with_llm` (source lines 51-158).  `clientErr` abstracts an
exception raised by the `OpenAI(...)` constructor (source lines 100-103),
caught by the outer `except` like every other exception of the `try`
block; `sandbox` is the `run_code` oracle of `code_interpret`; `m₀` is
the session's model name on entry. -/
def chat_with_llm (clientErr : Option String)
    (create₀ : List Char → String → Nat → String → Nat → CallResult)
    (sandbox : String → ExecOutcome) (dataset_path : String)
    (cols : List Column) (user_message : String) (m₀ : String) :
    Option (List ResultObj) × String :=
  match clientErr with
  | some e => (none, e)
  | none =>
    match (chatLoop create₀ dataset_path cols user_message m₀).1 with
    | LoopResult.raised msg _ => (none, msg)
    | LoopResult.exhausted _ => (none, failedMsg)
    | LoopResult.success content _ =>
      (code_interpret sandbox (extract_python_code content), content)

/-- The trace of client calls attempted by a `chat_with_llm` run. -/
def chatTrace (clientErr : Option String)
    (create₀ : List Char → String → Nat → String → Nat → CallResult)
    (dataset_path : String) (cols : List Column) (user_message : String)
    (m₀ : String) : List AttemptRec :=
  match clientErr with
  | some _ => []
  | none => (chatLoop create₀ dataset_path cols user_message m₀).2

/-- The backtick character, written by code point. -/
def btChar : Char := '\x60'

/-! ### Lemmas: prefixes, `findSubIdx`, `occursIn` -/

theorem isPrefixOf_iff_append : ∀ (a b : List Char),
    a.isPrefixOf b = true ↔ ∃ t, b = a ++ t := by
  intro a
  induction a with
  | nil =>
    intro b
    constructor
    · intro _
      exact ⟨b, rfl⟩
    · intro _
      cases b <;> simp [List.isPrefixOf]
  | cons x xs ih =>
    intro b
    cases b with
    | nil =>
      constructor
      · intro h
        simp [List.isPrefixOf] at h
      · rintro ⟨t, ht⟩
        simp at ht
    | cons y ys =>
      constructor
      · intro h
        simp only [List.isPrefixOf, Bool.and_eq_true, beq_iff_eq] at h
        obtain ⟨t, ht⟩ := (ih ys).1 h.2
        exact ⟨t, by simp [h.1, ht]⟩
      · rintro ⟨t, ht⟩
        simp only [List.cons_append, List.cons.injEq] at ht
        rw [show (x :: xs).isPrefixOf (y :: ys) = (x == y && xs.isPrefixOf ys) from rfl,
          ht.1.symm, beq_self_eq_true, Bool.true_and]
        exact (ih ys).2 ⟨t, ht.2⟩

theorem bool_eq_false_of_ne_true {b : Bool} (h : ¬b = true) : b = false := by
  cases b
  · rfl
  · exact absurd rfl h

theorem isPrefixOf_trans {a b c : List Char} (h1 : a.isPrefixOf b = true)
    (h2 : b.isPrefixOf c = true) : a.isPrefixOf c = true := by
  obtain ⟨t, rfl⟩ := (isPrefixOf_iff_append a b).1 h1
  obtain ⟨u, rfl⟩ := (isPrefixOf_iff_append _ c).1 h2
  exact (isPrefixOf_iff_append a _).2 ⟨t ++ u, by simp⟩

theorem isPrefixOf_nil_iff {a : List Char} : a.isPrefixOf ([] : List Char) = true ↔ a = [] := by
  cases a <;> simp [List.isPrefixOf]

theorem isPrefixOf_of_take {a l : List Char} {n : Nat}
    (h : a.isPrefixOf (l.take n) = true) : a.isPrefixOf l = true := by
  obtain ⟨t, ht⟩ := (isPrefixOf_iff_append _ _).1 h
  refine (isPrefixOf_iff_append a l).2 ⟨t ++ l.drop n, ?_⟩
  conv_lhs => rw [← List.take_append_drop n l]
  rw [ht, List.append_assoc]

theorem findSubIdx_some_isPrefixOf {pat : List Char} :
    ∀ {l : List Char} {i : Nat}, findSubIdx pat l = some i →
      pat.isPrefixOf (l.drop i) = true := by
  intro l
  induction l with
  | nil =>
    intro i h
    simp only [findSubIdx] at h
    split at h
    · rename_i hp
      cases h
      simpa using hp
    · cases h
  | cons c rest ih =>
    intro i h
    simp only [findSubIdx] at h
    split at h
    · rename_i hp
      cases h
      simpa using hp
    · rw [show ((findSubIdx pat rest).map (· + 1)) = Option.map (· + 1) (findSubIdx pat rest) from rfl,
        Option.map_eq_some'] at h
      obtain ⟨j, hj, rfl⟩ := h
      simpa using ih hj

theorem findSubIdx_some_min {pat : List Char} :
    ∀ {l : List Char} {i : Nat}, findSubIdx pat l = some i →
      ∀ j, j < i → pat.isPrefixOf (l.drop j) = false := by
  intro l
  induction l with
  | nil =>
    intro i h j hj
    simp only [findSubIdx] at h
    split at h
    · cases h
      omega
    · cases h
  | cons c rest ih =>
    intro i h j hj
    simp only [findSubIdx] at h
    split at h
    · cases h
      omega
    · rename_i hp
      rw [show ((findSubIdx pat rest).map (· + 1)) = Option.map (· + 1) (findSubIdx pat rest) from rfl,
        Option.map_eq_some'] at h
      obtain ⟨i', hi', rfl⟩ := h
      cases j with
      | zero =>
        rw [List.drop_zero]
        exact bool_eq_false_of_ne_true hp
      | succ j' =>
        simpa using ih hi' j' (by omega)

theorem findSubIdx_none {pat : List Char} :
    ∀ {l : List Char}, findSubIdx pat l = none →
      ∀ j, pat.isPrefixOf (l.drop j) = false := by
  intro l
  induction l with
  | nil =>
    intro h j
    simp only [findSubIdx] at h
    split at h
    · cases h
    · rename_i hp
      rw [List.drop_nil]
      exact bool_eq_false_of_ne_true hp
  | cons c rest ih =>
    intro h j
    simp only [findSubIdx] at h
    split at h
    · cases h
    · rename_i hp
      have hr : findSubIdx pat rest = none := by
        cases hfr : findSubIdx pat rest with
        | none => rfl
        | some v => rw [hfr] at h; cases h
      cases j with
      | zero =>
        rw [List.drop_zero]
        exact bool_eq_false_of_ne_true hp
      | succ j' =>
        simpa using ih hr j'

theorem findSubIdx_eq_some_of {pat : List Char} :
    ∀ {l : List Char} {i : Nat}, pat.isPrefixOf (l.drop i) = true →
      (∀ j, j < i → pat.isPrefixOf (l.drop j) = false) →
      findSubIdx pat l = some i := by
  intro l
  induction l with
  | nil =>
    intro i h1 h2
    have hi : i = 0 := by
      by_contra hne
      have := h2 0 (by omega)
      simp only [List.drop_nil] at this h1
      rw [h1] at this
      cases this
    subst hi
    simp only [findSubIdx, List.drop_zero] at h1 ⊢
    rw [if_pos h1]
  | cons c rest ih =>
    intro i h1 h2
    cases i with
    | zero =>
      simp only [List.drop_zero] at h1
      simp only [findSubIdx, if_pos h1]
    | succ i' =>
      have h0 : pat.isPrefixOf (c :: rest) = false := by
        simpa using h2 0 (by omega)
      simp only [findSubIdx, h0, Bool.false_eq_true, if_false]
      have hr : findSubIdx pat rest = some i' := by
        apply ih
        · simpa using h1
        · intro j hj
          simpa using h2 (j + 1) (by omega)
      rw [hr]
      rfl

theorem occursIn_iff_exists {pat l : List Char} :
    occursIn pat l = true ↔ ∃ i, pat.isPrefixOf (l.drop i) = true := by
  constructor
  · intro h
    unfold occursIn at h
    cases hf : findSubIdx pat l with
    | none => rw [hf] at h; cases h
    | some i => exact ⟨i, findSubIdx_some_isPrefixOf hf⟩
  · rintro ⟨i, hi⟩
    unfold occursIn
    cases hf : findSubIdx pat l with
    | none =>
      rw [findSubIdx_none hf i] at hi
      cases hi
    | some j => rfl

theorem occursIn_eq_false_iff {pat l : List Char} :
    occursIn pat l = false ↔ ∀ i, pat.isPrefixOf (l.drop i) = false := by
  constructor
  · intro h i
    by_contra hne
    have : occursIn pat l = true := occursIn_iff_exists.2 ⟨i, by
      cases hv : pat.isPrefixOf (l.drop i)
      · exact absurd hv hne
      · rfl⟩
    rw [this] at h
    cases h
  · intro h
    cases hv : occursIn pat l
    · rfl
    · obtain ⟨i, hi⟩ := occursIn_iff_exists.1 hv
      rw [h i] at hi
      cases hi

theorem occursIn_cons {pat : List Char} {c : Char} {rest : List Char} :
    occursIn pat (c :: rest) = (pat.isPrefixOf (c :: rest) || occursIn pat rest) := by
  unfold occursIn
  simp only [findSubIdx]
  cases hp : pat.isPrefixOf (c :: rest) with
  | true => simp
  | false =>
    simp only [Bool.false_eq_true, if_false, Bool.false_or]
    cases hf : findSubIdx pat rest with
    | none => simp
    | some v => simp

theorem occursIn_of_take {pat l : List Char} {n : Nat}
    (h : occursIn pat (l.take n) = true) : occursIn pat l = true := by
  obtain ⟨i, hi⟩ := occursIn_iff_exists.1 h
  rw [List.drop_take] at hi
  exact occursIn_iff_exists.2 ⟨i, isPrefixOf_of_take hi⟩

theorem occursIn_of_drop {pat l : List Char} {n : Nat}
    (h : occursIn pat (l.drop n) = true) : occursIn pat l = true := by
  obtain ⟨i, hi⟩ := occursIn_iff_exists.1 h
  rw [List.drop_drop] at hi
  exact occursIn_iff_exists.2 ⟨n + i, hi⟩

theorem exists_dropWhile_eq_drop (p : Char → Bool) :
    ∀ l : List Char, ∃ n, l.dropWhile p = l.drop n := by
  intro l
  induction l with
  | nil => exact ⟨0, rfl⟩
  | cons c rest ih =>
    cases hp : p c with
    | true =>
      obtain ⟨n, hn⟩ := ih
      exact ⟨n + 1, by simp [List.dropWhile, hp, hn]⟩
    | false =>
      exact ⟨0, by simp [List.dropWhile, hp]⟩

theorem exists_dropTrailing_eq_take (p : Char → Bool) :
    ∀ l : List Char, ∃ n, dropTrailing p l = l.take n := by
  intro l
  induction l with
  | nil => exact ⟨0, rfl⟩
  | cons c rest ih =>
    obtain ⟨n, hn⟩ := ih
    by_cases hb : (dropTrailing p rest).isEmpty && p c
    · exact ⟨0, by simp [dropTrailing, hb]⟩
    · refine ⟨n + 1, ?_⟩
      simp only [dropTrailing]
      rw [if_neg hb, hn]
      rfl

theorem occursIn_pyStrip_false {pat l : List Char}
    (h : occursIn pat l = false) : occursIn pat (pyStrip l) = false := by
  unfold pyStrip
  obtain ⟨n, hn⟩ := exists_dropTrailing_eq_take pyIsSpace (l.dropWhile pyIsSpace)
  obtain ⟨m, hm⟩ := exists_dropWhile_eq_drop pyIsSpace l
  rw [hn, hm]
  cases hv : occursIn pat ((l.drop m).take n) with
  | false => rfl
  | true =>
    rw [occursIn_of_drop (occursIn_of_take hv)] at h
    cases h

theorem occursIn_take_of_find {pat l : List Char} {q : Nat} (hne : pat ≠ [])
    (h : findSubIdx pat l = some q) : occursIn pat (l.take q) = false := by
  rw [occursIn_eq_false_iff]
  intro i
  cases hv : pat.isPrefixOf ((l.take q).drop i) with
  | false => rfl
  | true =>
    exfalso
    rw [List.drop_take] at hv
    by_cases hiq : i < q
    · have := findSubIdx_some_min h i hiq
      rw [isPrefixOf_of_take hv] at this
      cases this
    · have hq : q - i = 0 := by omega
      rw [hq, List.take_zero] at hv
      exact hne (isPrefixOf_nil_iff.1 hv)

/-! ### Lemmas: `pyReplace` and `pyStrip` -/

theorem isPrefixOf_nil_left (l : List Char) : ([] : List Char).isPrefixOf l = true := by
  rw [isPrefixOf_iff_append]
  exact ⟨l, rfl⟩

theorem isPrefixOf_cons_iff {a : Char} {as l : List Char} :
    (a :: as).isPrefixOf l = true ↔ ∃ m, l = a :: m ∧ as.isPrefixOf m = true := by
  rw [isPrefixOf_iff_append]
  constructor
  · rintro ⟨t, rfl⟩
    exact ⟨as ++ t, rfl, (isPrefixOf_iff_append _ _).2 ⟨t, rfl⟩⟩
  · rintro ⟨m, rfl, h⟩
    obtain ⟨t, rfl⟩ := (isPrefixOf_iff_append _ _).1 h
    exact ⟨t, rfl⟩

theorem isPrefixOf_single_iff {a : Char} {l : List Char} :
    [a].isPrefixOf l = true ↔ ∃ m, l = a :: m := by
  rw [isPrefixOf_cons_iff]
  constructor
  · rintro ⟨m, rfl, _⟩
    exact ⟨m, rfl⟩
  · rintro ⟨m, rfl⟩
    exact ⟨m, rfl, isPrefixOf_nil_left m⟩

theorem isPrefixOf_pair_iff {a b : Char} {l : List Char} :
    [a, b].isPrefixOf l = true ↔ ∃ m, l = a :: b :: m := by
  rw [isPrefixOf_cons_iff]
  constructor
  · rintro ⟨m, rfl, h⟩
    obtain ⟨m', rfl⟩ := isPrefixOf_single_iff.1 h
    exact ⟨m', rfl⟩
  · rintro ⟨m, rfl⟩
    exact ⟨b :: m, rfl, isPrefixOf_single_iff.2 ⟨m, rfl⟩⟩

theorem fence_isPrefixOf_iff {l : List Char} :
    fence.isPrefixOf l = true ↔ ∃ m, l = btChar :: btChar :: btChar :: m := by
  have hf : fence = btChar :: [btChar, btChar] := by decide
  rw [hf, isPrefixOf_cons_iff]
  constructor
  · rintro ⟨m, rfl, h⟩
    obtain ⟨m', rfl⟩ := isPrefixOf_pair_iff.1 h
    exact ⟨m', rfl⟩
  · rintro ⟨m, rfl⟩
    exact ⟨btChar :: btChar :: m, rfl, isPrefixOf_pair_iff.2 ⟨m, rfl⟩⟩

/-! ### Lemmas: `pyReplace` and `pyStrip` -/

theorem pyReplace_of_not_occ {needle repl : List Char} :
    ∀ {l : List Char}, occursIn needle l = false → pyReplace needle repl l = l := by
  intro l
  induction l with
  | nil =>
    intro _
    rw [pyReplace]
  | cons c rest ih =>
    intro h
    rw [occursIn_cons] at h
    have h1 : needle.isPrefixOf (c :: rest) = false := by
      cases hv : needle.isPrefixOf (c :: rest)
      · rfl
      · rw [hv, Bool.true_or] at h
        cases h
    have h2 : occursIn needle rest = false := by
      rw [h1, Bool.false_or] at h
      exact h
    rw [pyReplace, if_neg (by rw [h1]; exact Bool.false_ne_true), ih h2]

theorem pyReplace_fence_clean_aux :
    ∀ (n : Nat) (l : List Char), l.length ≤ n →
      occursIn fence (pyReplace fence [] l) = false
      ∧ ([btChar].isPrefixOf (pyReplace fence [] l) = true →
          [btChar].isPrefixOf l = true)
      ∧ ([btChar, btChar].isPrefixOf (pyReplace fence [] l) = true →
          [btChar, btChar].isPrefixOf l = true) := by
  intro n
  induction n with
  | zero =>
    intro l hl
    have hnil : l = [] := by
      cases l with
      | nil => rfl
      | cons c rest => simp at hl
    subst hnil
    have h0 : pyReplace fence [] ([] : List Char) = [] := by rw [pyReplace]
    rw [h0]
    exact ⟨by decide, fun h => h, fun h => h⟩
  | succ n ih =>
    intro l hl
    cases l with
    | nil =>
      have h0 : pyReplace fence [] ([] : List Char) = [] := by rw [pyReplace]
      rw [h0]
      exact ⟨by decide, fun h => h, fun h => h⟩
    | cons c rest =>
      cases hp : fence.isPrefixOf (c :: rest) with
      | true =>
        obtain ⟨m, hm⟩ := fence_isPrefixOf_iff.1 hp
        have hc : c = btChar := by
          have := congrArg (fun x => x.head?) hm
          simpa using this
        have hrest : rest = btChar :: btChar :: m := by
          have := congrArg (fun x => x.tail) hm
          simpa using this
        have hdrop : rest.drop (fence.length - 1) = m := by
          rw [hrest]
          rfl
        have heq : pyReplace fence [] (c :: rest) = pyReplace fence [] m := by
          rw [pyReplace, if_pos hp, hdrop]
          rfl
        have hml : m.length ≤ n := by
          have : rest.length = m.length + 2 := by rw [hrest]; simp
          have h2 : (c :: rest).length = rest.length + 1 := by simp
          omega
        have ihm := ih m hml
        refine ⟨by rw [heq]; exact ihm.1, ?_, ?_⟩
        · intro _
          exact isPrefixOf_single_iff.2 ⟨rest, by rw [hc]⟩
        · intro _
          exact isPrefixOf_pair_iff.2 ⟨btChar :: m, by rw [hc, hrest]⟩
      | false =>
        have heq : pyReplace fence [] (c :: rest) = c :: pyReplace fence [] rest := by
          rw [pyReplace, if_neg (by rw [hp]; exact Bool.false_ne_true)]
        have ihr := ih rest (by simp at hl; omega)
        refine ⟨?_, ?_, ?_⟩
        · rw [heq, occursIn_cons]
          have hnp : fence.isPrefixOf (c :: pyReplace fence [] rest) = false := by
            cases hv : fence.isPrefixOf (c :: pyReplace fence [] rest) with
            | false => rfl
            | true =>
              exfalso
              obtain ⟨m, hm⟩ := fence_isPrefixOf_iff.1 hv
              have hc : c = btChar := by
                have := congrArg (fun x => x.head?) hm
                simpa using this
              have htl : pyReplace fence [] rest = btChar :: btChar :: m := by
                have := congrArg (fun x => x.tail) hm
                simpa using this
              have h2 : [btChar, btChar].isPrefixOf (pyReplace fence [] rest) = true :=
                isPrefixOf_pair_iff.2 ⟨m, htl⟩
              obtain ⟨u, hu⟩ := isPrefixOf_pair_iff.1 (ihr.2.2 h2)
              have hcr : fence.isPrefixOf (c :: rest) = true :=
                fence_isPrefixOf_iff.2 ⟨u, by rw [hc, hu]⟩
              rw [hcr] at hp
              cases hp
          rw [hnp, Bool.false_or]
          exact ihr.1
        · intro h
          rw [heq] at h
          obtain ⟨m, hm⟩ := isPrefixOf_single_iff.1 h
          have hc : c = btChar := by
            have := congrArg (fun x => x.head?) hm
            simpa using this
          exact isPrefixOf_single_iff.2 ⟨rest, by rw [hc]⟩
        · intro h
          rw [heq] at h
          obtain ⟨m, hm⟩ := isPrefixOf_pair_iff.1 h
          have hc : c = btChar := by
            have := congrArg (fun x => x.head?) hm
            simpa using this
          have htl : pyReplace fence [] rest = btChar :: m := by
            have := congrArg (fun x => x.tail) hm
            simpa using this
          have h2 : [btChar].isPrefixOf (pyReplace fence [] rest) = true :=
            isPrefixOf_single_iff.2 ⟨m, htl⟩
          obtain ⟨u, hu⟩ := isPrefixOf_single_iff.1 (ihr.2.1 h2)
          exact isPrefixOf_pair_iff.2 ⟨u, by rw [hc, hu]⟩

theorem pyReplace_fence_clean (l : List Char) :
    occursIn fence (pyReplace fence [] l) = false :=
  (pyReplace_fence_clean_aux l.length l le_rfl).1

theorem dropWhile_head_false {p : Char → Bool} :
    ∀ {l : List Char} {c : Char} {m : List Char},
      l.dropWhile p = c :: m → p c = false := by
  intro l
  induction l with
  | nil =>
    intro c m h
    cases h
  | cons d rest ih =>
    intro c m h
    cases hp : p d with
    | true =>
      rw [List.dropWhile_cons, if_pos (by rw [hp])] at h
      exact ih h
    | false =>
      rw [List.dropWhile_cons, if_neg (by rw [hp]; exact Bool.false_ne_true)] at h
      cases h
      exact hp

theorem dropWhile_eq_self_of_head {p : Char → Bool} {l : List Char}
    (h : ∀ c m, l = c :: m → p c = false) : l.dropWhile p = l := by
  cases l with
  | nil => rfl
  | cons c m =>
    rw [List.dropWhile_cons, if_neg]
    rw [h c m rfl]
    exact Bool.false_ne_true

theorem dropTrailing_idem (p : Char → Bool) :
    ∀ l : List Char, dropTrailing p (dropTrailing p l) = dropTrailing p l := by
  intro l
  induction l with
  | nil => rfl
  | cons c rest ih =>
    by_cases hb : (dropTrailing p rest).isEmpty && p c
    · rw [dropTrailing]
      simp only [if_pos hb]
      rfl
    · rw [dropTrailing]
      simp only [if_neg hb]
      rw [dropTrailing]
      simp only [ih]
      rw [if_neg hb]

theorem take_head_eq {l : List Char} {n : Nat} {c : Char} {m : List Char}
    (h : l.take n = c :: m) : ∃ m', l = c :: m' := by
  cases l with
  | nil => rw [List.take_nil] at h; cases h
  | cons d rest =>
    cases n with
    | zero => cases h
    | succ n' =>
      rw [List.take_succ_cons] at h
      injection h with h1 h2
      exact ⟨rest, by rw [h1]⟩

theorem pyStrip_idem (l : List Char) : pyStrip (pyStrip l) = pyStrip l := by
  unfold pyStrip
  have hdw : (dropTrailing pyIsSpace (l.dropWhile pyIsSpace)).dropWhile pyIsSpace
      = dropTrailing pyIsSpace (l.dropWhile pyIsSpace) := by
    apply dropWhile_eq_self_of_head
    intro c m h
    obtain ⟨n, hn⟩ := exists_dropTrailing_eq_take pyIsSpace (l.dropWhile pyIsSpace)
    rw [hn] at h
    obtain ⟨m', hm'⟩ := take_head_eq h
    exact dropWhile_head_false hm'
  rw [hdw, dropTrailing_idem]

/-! ### Lemmas: shape of `extractCore` -/

theorem genericExtract_shape (t : List Char) :
    ∃ u, genericExtract t = pyStrip u ∧ occursIn fence u = false := by
  cases h1 : findSubIdx fence t with
  | none =>
    refine ⟨pyReplace fence [] (pyReplace pyFence [] t), ?_, pyReplace_fence_clean _⟩
    simp only [genericExtract, h1]
    rfl
  | some p =>
    cases h2 : findSubIdx fence (t.drop (p + fence.length)) with
    | none =>
      refine ⟨pyReplace fence [] (pyReplace pyFence [] t), ?_, pyReplace_fence_clean _⟩
      simp only [genericExtract, h1, h2]
      rfl
    | some q =>
      refine ⟨(t.drop (p + fence.length)).take q, ?_,
        occursIn_take_of_find (by decide) h2⟩
      simp only [genericExtract, h1, h2]

theorem extractCore_shape (t : List Char) :
    ∃ u, extractCore t = pyStrip u ∧ occursIn fence u = false := by
  cases h1 : findSubIdx (lowerChars pyFence) (lowerChars t) with
  | none =>
    obtain ⟨u, hg, hc⟩ := genericExtract_shape t
    refine ⟨u, ?_, hc⟩
    simp only [extractCore, h1]
    exact hg
  | some p =>
    cases h2 : findSubIdx fence (t.drop (p + pyFence.length)) with
    | none =>
      obtain ⟨u, hg, hc⟩ := genericExtract_shape t
      refine ⟨u, ?_, hc⟩
      simp only [extractCore, h1, h2]
      exact hg
    | some q =>
      refine ⟨(t.drop (p + pyFence.length)).take q, ?_,
        occursIn_take_of_find (by decide) h2⟩
      simp only [extractCore, h1, h2]

theorem extractCore_fence_free (t : List Char) :
    occursIn fence (extractCore t) = false := by
  obtain ⟨u, he, hc⟩ := extractCore_shape t
  rw [he]
  exact occursIn_pyStrip_false hc

theorem extractCore_stripped (t : List Char) :
    pyStrip (extractCore t) = extractCore t := by
  obtain ⟨u, he, _⟩ := extractCore_shape t
  rw [he, pyStrip_idem]

/-! ### Lemmas: case folding and fence-free inputs -/

theorem toNat_ofNat_valid (n : Nat) (hv : n.isValidChar) : (Char.ofNat n).toNat = n := by
  unfold Char.ofNat
  rw [dif_pos hv]
  unfold Char.ofNatAux Char.toNat
  simp [UInt32.toNat, UInt32.ofNatCore]

theorem toLower_eq_backtick {c : Char} (h : c.toLower = btChar) : c = btChar := by
  have hb : btChar = Char.ofNat 96 := by decide
  rw [hb] at h ⊢
  unfold Char.toLower at h
  simp only [] at h
  by_cases hc : c.toNat ≥ 65 ∧ c.toNat ≤ 90
  · exfalso
    rw [if_pos hc] at h
    have h2 : (Char.ofNat (c.toNat + 32)).toNat = (Char.ofNat 96).toNat := by rw [h]
    have hv : (c.toNat + 32).isValidChar := by
      left
      omega
    rw [toNat_ofNat_valid _ hv] at h2
    have h96 : (Char.ofNat 96).toNat = 96 := by decide
    omega
  · rw [if_neg hc] at h
    exact h

theorem fence_isPrefixOf_of_lower {u : List Char}
    (h : fence.isPrefixOf (lowerChars u) = true) : fence.isPrefixOf u = true := by
  obtain ⟨m, hm⟩ := fence_isPrefixOf_iff.1 h
  cases u with
  | nil =>
    have := congrArg List.length hm
    simp [lowerChars] at this
  | cons a u1 =>
    cases u1 with
    | nil =>
      have := congrArg List.length hm
      simp [lowerChars] at this
    | cons b u2 =>
      cases u2 with
      | nil =>
        have := congrArg List.length hm
        simp [lowerChars] at this
      | cons d u3 =>
        simp only [lowerChars, List.map_cons] at hm
        injection hm with h1 hm
        injection hm with h2 hm
        injection hm with h3 hm
        rw [fence_isPrefixOf_iff]
        exact ⟨u3, by
          rw [toLower_eq_backtick h1, toLower_eq_backtick h2, toLower_eq_backtick h3]⟩

theorem lower_pyFence_eq : lowerChars pyFence = pyFence := by decide

theorem fence_isPrefixOf_pyFence : fence.isPrefixOf pyFence = true := by decide

theorem occursIn_fence_of_pyFence {t : List Char}
    (h : occursIn pyFence t = true) : occursIn fence t = true := by
  obtain ⟨i, hi⟩ := occursIn_iff_exists.1 h
  exact occursIn_iff_exists.2 ⟨i, isPrefixOf_trans fence_isPrefixOf_pyFence hi⟩

theorem findSubIdx_eq_none_of_not_occ {pat l : List Char}
    (h : occursIn pat l = false) : findSubIdx pat l = none := by
  unfold occursIn at h
  cases hf : findSubIdx pat l with
  | none => rfl
  | some v =>
    rw [hf] at h
    cases h

theorem findSubIdxCI_none_of_fence_free {t : List Char}
    (h : occursIn fence t = false) :
    findSubIdx (lowerChars pyFence) (lowerChars t) = none := by
  apply findSubIdx_eq_none_of_not_occ
  cases hv : occursIn (lowerChars pyFence) (lowerChars t) with
  | false => rfl
  | true =>
    exfalso
    obtain ⟨i, hi⟩ := occursIn_iff_exists.1 hv
    rw [lower_pyFence_eq] at hi
    have hfl : fence.isPrefixOf ((lowerChars t).drop i) = true :=
      isPrefixOf_trans fence_isPrefixOf_pyFence hi
    have hmap : (lowerChars t).drop i = lowerChars (t.drop i) := by
      unfold lowerChars
      rw [List.map_drop]
    rw [hmap] at hfl
    have := occursIn_iff_exists.2 ⟨i, fence_isPrefixOf_of_lower hfl⟩
    rw [this] at h
    cases h

theorem extractCore_of_fence_free {t : List Char}
    (h : occursIn fence t = false) : extractCore t = pyStrip t := by
  have h1 := findSubIdxCI_none_of_fence_free h
  have h2 := findSubIdx_eq_none_of_not_occ h
  have h3 : occursIn pyFence t = false := by
    cases hv : occursIn pyFence t with
    | false => rfl
    | true =>
      rw [occursIn_fence_of_pyFence hv] at h
      cases h
  simp only [extractCore, h1, genericExtract, h2, fallbackExtract]
  rw [pyReplace_of_not_occ h3, pyReplace_of_not_occ h]

theorem extractCore_idem (t : List Char) : extractCore (extractCore t) = extractCore t := by
  rw [extractCore_of_fence_free (extractCore_fence_free t), extractCore_stripped]

/-! ### Lemmas: the retry ladder -/

theorem runAttempts_head (create : Nat → String → Nat → CallResult)
    (i tok : Nat) (rest : List (Nat × Nat)) (m : String) :
    (runAttempts create ((i, tok) :: rest) m).2[0]? = some ⟨i, m, tok⟩ := by
  cases hc : create i m tok with
  | ok content => simp [runAttempts, hc]
  | err msg =>
    simp only [runAttempts, hc]
    by_cases h1 : contains402 msg = true ∧ i < token_attempts.length - 1
    · rw [if_pos h1]
      simp
    · rw [if_neg h1]
      by_cases h2 : contains429or50 msg = true ∧ m ≠ geminiFree
      · rw [if_pos h2]
        simp
      · rw [if_neg h2]
        simp

theorem runAttempts_trace_prefix (create : Nat → String → Nat → CallResult) :
    ∀ (l : List (Nat × Nat)) (m : String),
      ((runAttempts create l m).2.map (fun a => (a.idx, a.tokens))) <+: l := by
  intro l
  induction l with
  | nil =>
    intro m
    exact List.nil_prefix
  | cons p rest ih =>
    intro m
    obtain ⟨i, tok⟩ := p
    cases hc : create i m tok with
    | ok content =>
      simp only [runAttempts, hc]
      exact ⟨rest, rfl⟩
    | err msg =>
      simp only [runAttempts, hc]
      by_cases h1 : contains402 msg = true ∧ i < token_attempts.length - 1
      · rw [if_pos h1]
        simp only [List.map_cons]
        exact (List.cons_prefix_cons).2 ⟨rfl, ih m⟩
      · rw [if_neg h1]
        by_cases h2 : contains429or50 msg = true ∧ m ≠ geminiFree
        · rw [if_pos h2]
          simp only [List.map_cons]
          exact (List.cons_prefix_cons).2 ⟨rfl, ih geminiFree⟩
        · rw [if_neg h2]
          exact ⟨rest, rfl⟩

theorem runAttempts_spec (create : Nat → String → Nat → CallResult) :
    ∀ (l : List (Nat × Nat)) (m : String) (k : Nat) (a : AttemptRec),
      (runAttempts create l m).2[k]? = some a →
      l[k]? = some (a.idx, a.tokens)
      ∧ (∀ c, create a.idx a.model a.tokens = CallResult.ok c →
          (runAttempts create l m).1 = LoopResult.success c a.model
          ∧ (runAttempts create l m).2.length = k + 1)
      ∧ (∀ msg, create a.idx a.model a.tokens = CallResult.err msg →
          ((contains402 msg = true ∧ a.idx < token_attempts.length - 1) →
              (∀ p : Nat × Nat, l[k+1]? = some p →
                (runAttempts create l m).2[k+1]? = some ⟨p.1, a.model, p.2⟩)
            ∧ (l[k+1]? = none →
                (runAttempts create l m).1 = LoopResult.exhausted a.model
                ∧ (runAttempts create l m).2.length = k + 1))
          ∧ ((¬(contains402 msg = true ∧ a.idx < token_attempts.length - 1)
              ∧ contains429or50 msg = true ∧ a.model ≠ geminiFree) →
              (∀ p : Nat × Nat, l[k+1]? = some p →
                (runAttempts create l m).2[k+1]? = some ⟨p.1, geminiFree, p.2⟩)
            ∧ (l[k+1]? = none →
                (runAttempts create l m).1 = LoopResult.exhausted geminiFree
                ∧ (runAttempts create l m).2.length = k + 1))
          ∧ ((¬(contains402 msg = true ∧ a.idx < token_attempts.length - 1)
              ∧ ¬(contains429or50 msg = true ∧ a.model ≠ geminiFree)) →
              (runAttempts create l m).1 = LoopResult.raised msg a.model
              ∧ (runAttempts create l m).2.length = k + 1)) := by
  intro l
  induction l with
  | nil =>
    intro m k a ha
    simp [runAttempts] at ha
  | cons hd rest ih =>
    intro m k a ha
    obtain ⟨i, tok⟩ := hd
    cases hc : create i m tok with
    | ok content =>
      simp only [runAttempts, hc] at ha ⊢
      cases k with
      | zero =>
        simp only [List.getElem?_cons_zero, Option.some.injEq] at ha
        subst ha
        refine ⟨by simp, ?_, ?_⟩
        · intro c hcc
          rw [hcc] at hc
          injection hc with h1
          exact ⟨by rw [h1], rfl⟩
        · intro msg hmm
          rw [hmm] at hc
          cases hc
      | succ k' =>
        simp at ha
    | err msg0 =>
      by_cases h1 : contains402 msg0 = true ∧ i < token_attempts.length - 1
      · have heq : runAttempts create ((i, tok) :: rest) m =
            ((runAttempts create rest m).1,
              ⟨i, m, tok⟩ :: (runAttempts create rest m).2) := by
          simp only [runAttempts, hc]
          rw [if_pos h1]
        cases k with
        | zero =>
          rw [heq] at ha
          simp only [List.getElem?_cons_zero, Option.some.injEq] at ha
          subst ha
          refine ⟨by simp, ?_, ?_⟩
          · intro c hcc
            rw [hcc] at hc
            cases hc
          · intro msg hmm
            rw [hmm] at hc
            injection hc with hmsg
            subst hmsg
            refine ⟨?_, ?_, ?_⟩
            · intro _
              constructor
              · intro p hp
                rw [heq]
                simp only [List.getElem?_cons_succ]
                cases rest with
                | nil => simp at hp
                | cons p2 rest2 =>
                  simp only [List.getElem?_cons_succ, List.getElem?_cons_zero,
                    Option.some.injEq] at hp
                  subst hp
                  exact runAttempts_head create p2.1 p2.2 rest2 m
              · intro hp
                have hrest : rest = [] := by
                  cases rest with
                  | nil => rfl
                  | cons p2 rest2 => simp at hp
                subst hrest
                rw [heq]
                simp [runAttempts]
            · intro hcontra
              exact absurd h1 hcontra.1
            · intro hcontra
              exact absurd h1 hcontra.1
        | succ k' =>
          rw [heq] at ha
          simp only [List.getElem?_cons_succ] at ha
          have := ih m k' a ha
          refine ⟨by simpa using this.1, ?_, ?_⟩
          · intro c hcc
            have h2 := this.2.1 c hcc
            rw [heq]
            exact ⟨h2.1, by simp [h2.2]⟩
          · intro msg hmm
            have h3 := this.2.2 msg hmm
            refine ⟨?_, ?_, ?_⟩
            · intro hb
              constructor
              · intro p hp
                rw [heq]
                simp only [List.getElem?_cons_succ]
                exact (h3.1 hb).1 p (by simpa using hp)
              · intro hp
                have h4 := (h3.1 hb).2 (by simpa using hp)
                rw [heq]
                exact ⟨h4.1, by simp [h4.2]⟩
            · intro hb
              constructor
              · intro p hp
                rw [heq]
                simp only [List.getElem?_cons_succ]
                exact (h3.2.1 hb).1 p (by simpa using hp)
              · intro hp
                have h4 := (h3.2.1 hb).2 (by simpa using hp)
                rw [heq]
                exact ⟨h4.1, by simp [h4.2]⟩
            · intro hb
              have h4 := h3.2.2 hb
              rw [heq]
              exact ⟨h4.1, by simp [h4.2]⟩
      · by_cases h2 : contains429or50 msg0 = true ∧ m ≠ geminiFree
        · have heq : runAttempts create ((i, tok) :: rest) m =
              ((runAttempts create rest geminiFree).1,
                ⟨i, m, tok⟩ :: (runAttempts create rest geminiFree).2) := by
            simp only [runAttempts, hc]
            rw [if_neg h1, if_pos h2]
          cases k with
          | zero =>
            rw [heq] at ha
            simp only [List.getElem?_cons_zero, Option.some.injEq] at ha
            subst ha
            refine ⟨by simp, ?_, ?_⟩
            · intro c hcc
              rw [hcc] at hc
              cases hc
            · intro msg hmm
              rw [hmm] at hc
              injection hc with hmsg
              subst hmsg
              refine ⟨?_, ?_, ?_⟩
              · intro hcontra
                exact absurd hcontra h1
              · intro hb
                constructor
                · intro p hp
                  rw [heq]
                  simp only [List.getElem?_cons_succ]
                  cases rest with
                  | nil => simp at hp
                  | cons p2 rest2 =>
                    simp only [List.getElem?_cons_succ, List.getElem?_cons_zero,
                      Option.some.injEq] at hp
                    subst hp
                    exact runAttempts_head create p2.1 p2.2 rest2 geminiFree
                · intro hp
                  have hrest : rest = [] := by
                    cases rest with
                    | nil => rfl
                    | cons p2 rest2 => simp at hp
                  subst hrest
                  rw [heq]
                  simp [runAttempts]
              · intro hcontra
                exact absurd h2 hcontra.2
          | succ k' =>
            rw [heq] at ha
            simp only [List.getElem?_cons_succ] at ha
            have := ih geminiFree k' a ha
            refine ⟨by simpa using this.1, ?_, ?_⟩
            · intro c hcc
              have hx := this.2.1 c hcc
              rw [heq]
              exact ⟨hx.1, by simp [hx.2]⟩
            · intro msg hmm
              have h3 := this.2.2 msg hmm
              refine ⟨?_, ?_, ?_⟩
              · intro hb
                constructor
                · intro p hp
                  rw [heq]
                  simp only [List.getElem?_cons_succ]
                  exact (h3.1 hb).1 p (by simpa using hp)
                · intro hp
                  have h4 := (h3.1 hb).2 (by simpa using hp)
                  rw [heq]
                  exact ⟨h4.1, by simp [h4.2]⟩
              · intro hb
                constructor
                · intro p hp
                  rw [heq]
                  simp only [List.getElem?_cons_succ]
                  exact (h3.2.1 hb).1 p (by simpa using hp)
                · intro hp
                  have h4 := (h3.2.1 hb).2 (by simpa using hp)
                  rw [heq]
                  exact ⟨h4.1, by simp [h4.2]⟩
              · intro hb
                have h4 := h3.2.2 hb
                rw [heq]
                exact ⟨h4.1, by simp [h4.2]⟩
        · have heq : runAttempts create ((i, tok) :: rest) m =
              (LoopResult.raised msg0 m, [⟨i, m, tok⟩]) := by
            simp only [runAttempts, hc]
            rw [if_neg h1, if_neg h2]
          cases k with
          | zero =>
            rw [heq] at ha
            simp only [List.getElem?_cons_zero, Option.some.injEq] at ha
            subst ha
            refine ⟨by simp, ?_, ?_⟩
            · intro c hcc
              rw [hcc] at hc
              cases hc
            · intro msg hmm
              rw [hmm] at hc
              injection hc with hmsg
              subst hmsg
              refine ⟨?_, ?_, ?_⟩
              · intro hcontra
                exact absurd hcontra h1
              · intro hcontra
                exact absurd hcontra.2 h2
              · intro _
                rw [heq]
                exact ⟨rfl, rfl⟩
          | succ k' =>
            rw [heq] at ha
            simp at ha

theorem token_enum_eq : token_attempts.enum = [(0, 2000), (1, 500), (2, 200)] := by decide

theorem token_enum_get {k : Nat} {p : Nat × Nat}
    (h : token_attempts.enum[k]? = some p) :
    p.1 = k ∧ token_attempts[k]? = some p.2 := by
  rw [token_enum_eq] at h
  match k with
  | 0 =>
    simp only [List.getElem?_cons_zero, Option.some.injEq] at h
    subst h
    exact ⟨rfl, by decide⟩
  | 1 =>
    simp only [List.getElem?_cons_succ, List.getElem?_cons_zero, Option.some.injEq] at h
    subst h
    exact ⟨rfl, by decide⟩
  | 2 =>
    simp only [List.getElem?_cons_succ, List.getElem?_cons_zero, Option.some.injEq] at h
    subst h
    exact ⟨rfl, by decide⟩
  | n + 3 =>
    simp only [List.getElem?_cons_succ] at h
    simp at h

/-! ### Lemmas: joining and splitting lines -/

theorem splitLinesC_no_nl : ∀ {a : List Char}, ('\n' : Char) ∉ a → splitLinesC a = [a] := by
  intro a
  induction a with
  | nil => intro _; rfl
  | cons c rest ih =>
    intro h
    have hc : c ≠ '\n' := fun hx => h (by rw [hx]; exact List.mem_cons_self _ _)
    have hr : ('\n' : Char) ∉ rest := fun hx => h (List.mem_cons_of_mem _ hx)
    simp only [splitLinesC, if_neg hc, ih hr]

theorem splitLinesC_append_nl : ∀ {a b : List Char}, ('\n' : Char) ∉ a →
    splitLinesC (a ++ '\n' :: b) = a :: splitLinesC b := by
  intro a
  induction a with
  | nil =>
    intro b _
    simp [splitLinesC]
  | cons c rest ih =>
    intro b h
    have hc : c ≠ '\n' := fun hx => h (by rw [hx]; exact List.mem_cons_self _ _)
    have hr : ('\n' : Char) ∉ rest := fun hx => h (List.mem_cons_of_mem _ hx)
    simp only [List.cons_append, splitLinesC, if_neg hc]
    rw [List.append_eq, ih hr]

theorem splitLinesC_joinLines :
    ∀ {ls : List (List Char)}, ls ≠ [] → (∀ x ∈ ls, ('\n' : Char) ∉ x) →
      splitLinesC (joinLines ls) = ls := by
  intro ls
  induction ls with
  | nil => intro h _; exact absurd rfl h
  | cons x rest ih =>
    intro _ hmem
    cases rest with
    | nil =>
      exact splitLinesC_no_nl (hmem x (List.mem_cons_self _ _))
    | cons y rest2 =>
      have hx : ('\n' : Char) ∉ x := hmem x (List.mem_cons_self _ _)
      have hj : joinLines (x :: y :: rest2) = x ++ '\n' :: joinLines (y :: rest2) := rfl
      rw [hj, splitLinesC_append_nl hx,
        ih (by simp) (fun z hz => hmem z (List.mem_cons_of_mem _ hz))]

/-! ### Claim theorems -/

/-- C1: in every run of `chat_with_llm` the chat-completion call is
attempted at most three times; the trace of attempted calls, projected to
`(attempt index, max_tokens)`, is a prefix of
`enumerate(token_attempts) = [(0, 2000), (1, 500), (2, 200)]`, so the
i-th attempt uses the i-th tier and no attempt follows the third. -/
theorem C1_attempt_ladder (clientErr : Option String)
    (create₀ : List Char → String → Nat → String → Nat → CallResult)
    (dataset_path : String) (cols : List Column) (user_message : String)
    (m₀ : String) :
    ((chatTrace clientErr create₀ dataset_path cols user_message m₀).map
        (fun a => (a.idx, a.tokens))) <+: token_attempts.enum
    ∧ (chatTrace clientErr create₀ dataset_path cols user_message m₀).length
        ≤ token_attempts.length := by
  cases clientErr with
  | some e =>
    constructor
    · simp only [chatTrace, List.map_nil]
      exact List.nil_prefix
    · simp [chatTrace]
  | none =>
    have h := runAttempts_trace_prefix (chatCall create₀ dataset_path cols user_message)
      token_attempts.enum m₀
    constructor
    · simp only [chatTrace, chatLoop, runLadder]
      exact h
    · have hlen := List.IsPrefix.length_le h
      rw [List.length_map, List.enum_length] at hlen
      simp only [chatTrace, chatLoop, runLadder]
      exact hlen

/-- C7: `code_interpret` is a pass-through: when the sandbox execution
completes without error it returns the results list unchanged, and it
returns `none` exactly when the execution carries an error or the
sandbox call raises. -/
theorem C7_code_interpret_passthrough (sandbox : String → ExecOutcome) (code : String) :
    (∀ results, sandbox code = ExecOutcome.completed none results →
      code_interpret sandbox code = some results)
    ∧ (code_interpret sandbox code = none ↔
        ((∃ msg, sandbox code = ExecOutcome.raises msg)
          ∨ (∃ e results, sandbox code = ExecOutcome.completed (some e) results))) := by
  constructor
  · intro results h
    simp [code_interpret, h]
  · constructor
    · intro h
      cases hs : sandbox code with
      | raises msg => exact Or.inl ⟨msg, rfl⟩
      | completed err res =>
        cases err with
        | none => simp [code_interpret, hs] at h
        | some e => exact Or.inr ⟨e, res, rfl⟩
    · rintro (⟨msg, hm⟩ | ⟨e, res, hm⟩) <;> simp [code_interpret, hm]

theorem C7_code_interpret_passthrough_witness :
    code_interpret (fun _ => ExecOutcome.completed none [⟨none, none, some "hi"⟩])
        "print(1)"
      = some [⟨none, none, some "hi"⟩] :=
  (C7_code_interpret_passthrough
    (fun _ => ExecOutcome.completed none [⟨none, none, some "hi"⟩]) "print(1)").1 _ rfl

/-- C6: `display_visualization_results` renders a `none` or empty result
list as a lone warning; otherwise it emits the header and, per result
object, at most one of the three representations, chosen in the fixed
order image (non-empty `png`, via the decoder), table (non-empty `data`),
text (non-empty `text`); an object with none of the three renders
nothing. -/
theorem C6_display_results (decode : String → Option String) (r : ResultObj)
    (rs : List ResultObj) :
    display_visualization_results decode none = [RenderAction.warning]
    ∧ display_visualization_results decode (some []) = [RenderAction.warning]
    ∧ (rs ≠ [] → display_visualization_results decode (some rs) =
        RenderAction.header :: rs.flatMap (renderOne decode))
    ∧ (renderOne decode r).length ≤ 1
    ∧ (truthyOpt r.png = true →
        (∀ img, decode (r.png.getD "") = some img →
          renderOne decode r = [RenderAction.image img])
        ∧ (decode (r.png.getD "") = none →
          renderOne decode r = [RenderAction.imageError]))
    ∧ (truthyOpt r.png = false → truthyOpt r.data = true →
        renderOne decode r = [RenderAction.table (r.data.getD "")])
    ∧ (truthyOpt r.png = false → truthyOpt r.data = false →
        truthyOpt r.text = true →
        renderOne decode r = [RenderAction.textOut (r.text.getD "")])
    ∧ (truthyOpt r.png = false → truthyOpt r.data = false →
        truthyOpt r.text = false → renderOne decode r = []) := by
  refine ⟨rfl, rfl, ?_, ?_, ?_, ?_, ?_, ?_⟩
  · intro h
    cases rs with
    | nil => exact absurd rfl h
    | cons x xs => rfl
  · unfold renderOne
    by_cases h1 : truthyOpt r.png = true
    · rw [if_pos h1]
      cases decode (r.png.getD "") <;> simp
    · rw [if_neg h1]
      by_cases h2 : truthyOpt r.data = true
      · rw [if_pos h2]
        simp
      · rw [if_neg h2]
        by_cases h3 : truthyOpt r.text = true
        · rw [if_pos h3]
          simp
        · rw [if_neg h3]
          simp
  · intro h1
    constructor
    · intro img himg
      unfold renderOne
      rw [if_pos h1, himg]
    · intro himg
      unfold renderOne
      rw [if_pos h1, himg]
  · intro h1 h2
    unfold renderOne
    rw [if_neg (by rw [h1]; exact Bool.false_ne_true), if_pos h2]
  · intro h1 h2 h3
    unfold renderOne
    rw [if_neg (by rw [h1]; exact Bool.false_ne_true),
      if_neg (by rw [h2]; exact Bool.false_ne_true), if_pos h3]
  · intro h1 h2 h3
    unfold renderOne
    rw [if_neg (by rw [h1]; exact Bool.false_ne_true),
      if_neg (by rw [h2]; exact Bool.false_ne_true),
      if_neg (by rw [h3]; exact Bool.false_ne_true)]

theorem C6_display_results_witness :
    display_visualization_results (fun s => some s) none = [RenderAction.warning]
    ∧ truthyOpt (some "png-bytes") = true
    ∧ renderOne (fun s => some s) ⟨some "png-bytes", some "tbl", none⟩
        = [RenderAction.image "png-bytes"]
    ∧ renderOne (fun s => some s) ⟨none, some "tbl", none⟩
        = [RenderAction.table "tbl"] := by
  have h := C6_display_results (fun s => some s) ⟨some "png-bytes", some "tbl", none⟩ []
  have h2 := C6_display_results (fun s => some s) ⟨none, some "tbl", none⟩ []
  exact ⟨h.1, rfl, (h.2.2.2.2.1 rfl).1 _ rfl, h2.2.2.2.2.2.1 rfl rfl⟩

/-- C10: `chat_with_llm` is total at its interface: every outcome of the
client-constructor, client-call and sandbox oracles yields a returned
pair whose second component is a string, and whenever no LLM response
was obtained (constructor failure, a re-raised loop error, or an
exhausted ladder) the first component is `none` and the second is the
error text. -/
theorem C10_chat_total (clientErr : Option String)
    (create₀ : List Char → String → Nat → String → Nat → CallResult)
    (sandbox : String → ExecOutcome) (dataset_path : String)
    (cols : List Column) (user_message : String) (m₀ : String) :
    (∀ e, clientErr = some e →
      chat_with_llm clientErr create₀ sandbox dataset_path cols user_message m₀
        = (none, e))
    ∧ (clientErr = none →
        (∀ msg mdl,
          (chatLoop create₀ dataset_path cols user_message m₀).1
              = LoopResult.raised msg mdl →
          chat_with_llm clientErr create₀ sandbox dataset_path cols user_message m₀
            = (none, msg))
        ∧ (∀ mdl,
          (chatLoop create₀ dataset_path cols user_message m₀).1
              = LoopResult.exhausted mdl →
          chat_with_llm clientErr create₀ sandbox dataset_path cols user_message m₀
            = (none, failedMsg))
        ∧ (∀ content mdl,
          (chatLoop create₀ dataset_path cols user_message m₀).1
              = LoopResult.success content mdl →
          chat_with_llm clientErr create₀ sandbox dataset_path cols user_message m₀
            = (code_interpret sandbox (extract_python_code content), content))) := by
  constructor
  · intro e he
    subst he
    rfl
  · intro hn
    subst hn
    refine ⟨?_, ?_, ?_⟩
    · intro msg mdl h
      simp [chat_with_llm, h]
    · intro mdl h
      simp [chat_with_llm, h]
    · intro content mdl h
      simp [chat_with_llm, h]

theorem C10_chat_total_witness :
    chat_with_llm none (fun _ _ _ _ _ => CallResult.err "boom")
        (fun _ => ExecOutcome.raises "no sandbox") "d.csv" [] "q" "m"
      = (none, "boom") :=
  ((C10_chat_total none (fun _ _ _ _ _ => CallResult.err "boom")
      (fun _ => ExecOutcome.raises "no sandbox") "d.csv" [] "q" "m").2 rfl).1
    "boom" "m" (by decide)

/-- C2 counterexample: the error text `"503"` contains neither `"402"`
nor `"429"`, so under the claim it matches neither branch and no further
attempt should be made; yet the loop (matching `"50"`) switches the model
and performs a second attempt before re-raising. -/
theorem C2_counterexample :
    contains402 "503" = false
    ∧ occursIn "429".toList "503".toList = false
    ∧ (runLadder (fun _ _ _ => CallResult.err "503")
        "meta-llama/llama-3.3-70b-instruct:free").2.length = 2
    ∧ (runLadder (fun _ _ _ => CallResult.err "503")
        "meta-llama/llama-3.3-70b-instruct:free").1
        = LoopResult.raised "503" geminiFree := by
  refine ⟨by decide, by decide, by decide, by decide⟩

/-- C2 (amended): the loop has exactly two retryable branches — quota
exhaustion (message contains `"402"`) and rate limiting / server error
(message contains `"429"` or `"50"`); an attempt failing with an error
matching neither branch is re-raised, no further attempt is made, and
`chat_with_llm` returns `none` paired with the error text. -/
theorem C2_unmatched_error_reraised
    (create₀ : List Char → String → Nat → String → Nat → CallResult)
    (sandbox : String → ExecOutcome) (dataset_path : String)
    (cols : List Column) (user_message : String) (m₀ : String)
    (k : Nat) (a : AttemptRec) (msg : String)
    (h1 : (chatLoop create₀ dataset_path cols user_message m₀).2[k]? = some a)
    (h2 : chatCall create₀ dataset_path cols user_message a.idx a.model a.tokens
        = CallResult.err msg)
    (h3 : contains402 msg = false)
    (h4 : contains429or50 msg = false) :
    (chatLoop create₀ dataset_path cols user_message m₀).1
        = LoopResult.raised msg a.model
    ∧ (chatLoop create₀ dataset_path cols user_message m₀).2.length = k + 1
    ∧ chat_with_llm none create₀ sandbox dataset_path cols user_message m₀
        = (none, msg) := by
  have h1' : (runAttempts (chatCall create₀ dataset_path cols user_message)
      token_attempts.enum m₀).2[k]? = some a := h1
  have spec := runAttempts_spec (chatCall create₀ dataset_path cols user_message)
    token_attempts.enum m₀ k a h1'
  have hres := (spec.2.2 msg h2).2.2
    ⟨fun hx => by rw [h3] at hx; exact absurd hx.1 Bool.false_ne_true,
      fun hx => by rw [h4] at hx; exact absurd hx.1 Bool.false_ne_true⟩
  refine ⟨hres.1, hres.2, ?_⟩
  have hl : (chatLoop create₀ dataset_path cols user_message m₀).1
      = LoopResult.raised msg a.model := hres.1
  simp [chat_with_llm, hl]

theorem C2_unmatched_error_reraised_witness :
    (chatLoop (fun _ _ _ _ _ => CallResult.err "connection reset") "d.csv" [] "q"
        "m").2[0]? = some ⟨0, "m", 2000⟩
    ∧ contains402 "connection reset" = false
    ∧ contains429or50 "connection reset" = false
    ∧ (chatLoop (fun _ _ _ _ _ => CallResult.err "connection reset") "d.csv" [] "q"
        "m").1 = LoopResult.raised "connection reset" "m"
    ∧ chat_with_llm none (fun _ _ _ _ _ => CallResult.err "connection reset")
        (fun _ => ExecOutcome.raises "x") "d.csv" [] "q" "m"
      = (none, "connection reset") := by
  have h := C2_unmatched_error_reraised (fun _ _ _ _ _ => CallResult.err "connection reset")
    (fun _ => ExecOutcome.raises "x") "d.csv" [] "q" "m" 0 ⟨0, "m", 2000⟩
    "connection reset" (by decide) rfl (by decide) (by decide)
  exact ⟨by decide, by decide, by decide, h.1, h.2.2⟩

/-- C3: an attempt failing with a quota-exhaustion error (message
containing `"402"`) triggers, when it is not the last of the three
attempts, a next attempt with the next (strictly lower) token limit of
the ladder and the same model; on the last attempt the error is not
retried — the trace ends there — and `chat_with_llm` returns a failure
(first component `none`). -/
theorem C3_quota_ladder
    (create₀ : List Char → String → Nat → String → Nat → CallResult)
    (sandbox : String → ExecOutcome) (dataset_path : String)
    (cols : List Column) (user_message : String) (m₀ : String)
    (k : Nat) (a : AttemptRec) (msg : String)
    (h1 : (chatLoop create₀ dataset_path cols user_message m₀).2[k]? = some a)
    (h2 : chatCall create₀ dataset_path cols user_message a.idx a.model a.tokens
        = CallResult.err msg)
    (h3 : contains402 msg = true) :
    (a.idx < token_attempts.length - 1 →
      ∃ tok2, token_attempts[a.idx + 1]? = some tok2 ∧ tok2 < a.tokens
        ∧ (chatLoop create₀ dataset_path cols user_message m₀).2[k + 1]?
            = some ⟨a.idx + 1, a.model, tok2⟩)
    ∧ (a.idx = token_attempts.length - 1 →
        (chatLoop create₀ dataset_path cols user_message m₀).2.length = k + 1
        ∧ (chat_with_llm none create₀ sandbox dataset_path cols user_message m₀).1
            = none) := by
  have h1' : (runAttempts (chatCall create₀ dataset_path cols user_message)
      token_attempts.enum m₀).2[k]? = some a := h1
  have spec := runAttempts_spec (chatCall create₀ dataset_path cols user_message)
    token_attempts.enum m₀ k a h1'
  obtain ⟨hidx, htok⟩ := token_enum_get spec.1
  simp only at hidx htok
  constructor
  · intro hlt
    have hb := (spec.2.2 msg h2).1 ⟨h3, hlt⟩
    have hL : token_attempts.length - 1 = 2 := by decide
    rw [hL] at hlt
    have hk2 : k = 0 ∨ k = 1 := by omega
    rcases hk2 with hk | hk
    · subst hk
      have he : token_attempts.enum[0 + 1]? = some (1, 500) := by decide
      have htr := hb.1 (1, 500) he
      have ht0 : token_attempts[0]? = some 2000 := by decide
      rw [ht0] at htok
      injection htok with htok2
      refine ⟨500, ?_, ?_, ?_⟩
      · rw [hidx]
        decide
      · omega
      · rw [hidx]
        exact htr
    · subst hk
      have he : token_attempts.enum[1 + 1]? = some (2, 200) := by decide
      have htr := hb.1 (2, 200) he
      have ht1 : token_attempts[1]? = some 500 := by decide
      rw [ht1] at htok
      injection htok with htok2
      refine ⟨200, ?_, ?_, ?_⟩
      · rw [hidx]
        decide
      · omega
      · rw [hidx]
        exact htr
  · intro hlast
    have hL : token_attempts.length - 1 = 2 := by decide
    rw [hL] at hlast
    have hk : k = 2 := by omega
    subst hk
    have hnone : token_attempts.enum[2 + 1]? = none := by decide
    have hnotA : ¬(contains402 msg = true ∧ a.idx < token_attempts.length - 1) := by
      rintro ⟨_, hx⟩
      rw [hlast, hL] at hx
      omega
    by_cases helif : contains429or50 msg = true ∧ a.model ≠ geminiFree
    · have hb := (spec.2.2 msg h2).2.1 ⟨hnotA, helif.1, helif.2⟩
      have hres := hb.2 hnone
      refine ⟨hres.2, ?_⟩
      have hl : (chatLoop create₀ dataset_path cols user_message m₀).1
          = LoopResult.exhausted geminiFree := hres.1
      simp [chat_with_llm, hl]
    · have hres := (spec.2.2 msg h2).2.2 ⟨hnotA, helif⟩
      refine ⟨hres.2, ?_⟩
      have hl : (chatLoop create₀ dataset_path cols user_message m₀).1
          = LoopResult.raised msg a.model := hres.1
      simp [chat_with_llm, hl]

theorem C3_quota_ladder_witness :
    (chatLoop (fun _ _ i _ _ => if i = 0 then CallResult.err "Error 402: low balance"
        else CallResult.ok "resp") "d.csv" [] "q" "m").2[0]? = some ⟨0, "m", 2000⟩
    ∧ contains402 "Error 402: low balance" = true
    ∧ (∃ tok2, token_attempts[0 + 1]? = some tok2 ∧ tok2 < 2000
        ∧ (chatLoop (fun _ _ i _ _ => if i = 0 then CallResult.err "Error 402: low balance"
            else CallResult.ok "resp") "d.csv" [] "q" "m").2[0 + 1]?
          = some ⟨0 + 1, "m", tok2⟩) := by
  have h := C3_quota_ladder
    (fun _ _ i _ _ => if i = 0 then CallResult.err "Error 402: low balance"
      else CallResult.ok "resp")
    (fun _ => ExecOutcome.raises "x") "d.csv" [] "q" "m" 0 ⟨0, "m", 2000⟩
    "Error 402: low balance" (by decide) (by decide) (by decide)
  exact ⟨by decide, by decide, h.1 (by decide)⟩

/-- C4 counterexample: when the third (last) attempt fails with `"429"`
while the model is not the free Gemini model, the code switches the model
but the loop ends — there is no retry after the switch, contradicting
the claim that the model is switched and the loop then retries. -/
theorem C4_counterexample :
    (runLadder (fun i _ _ => if i < 2 then CallResult.err "402"
        else CallResult.err "429") "meta-llama/llama-3.3-70b-instruct:free").2[2]?
      = some ⟨2, "meta-llama/llama-3.3-70b-instruct:free", 200⟩
    ∧ contains429or50 "429" = true
    ∧ "meta-llama/llama-3.3-70b-instruct:free" ≠ geminiFree
    ∧ (runLadder (fun i _ _ => if i < 2 then CallResult.err "402"
        else CallResult.err "429") "meta-llama/llama-3.3-70b-instruct:free").2.length
      = 3
    ∧ (runLadder (fun i _ _ => if i < 2 then CallResult.err "402"
        else CallResult.err "429") "meta-llama/llama-3.3-70b-instruct:free").1
      = LoopResult.exhausted geminiFree := by
  refine ⟨by decide, by decide, by decide, by decide, by decide⟩

/-- C4 (amended): for an attempt failing with an error containing `"429"`
or `"50"` that is not captured by the quota branch (a `"402"` message on
a non-final attempt): when the session model is not
`google/gemini-2.0-flash-exp:free` it is switched to it, and the loop
proceeds to the next attempt when one remains, while after the final
attempt the loop ends exhausted and `chat_with_llm` returns a failure;
when the model already is the free Gemini model, the error is re-raised
and the retry loop ends. -/
theorem C4_rate_limit_switch
    (create₀ : List Char → String → Nat → String → Nat → CallResult)
    (sandbox : String → ExecOutcome) (dataset_path : String)
    (cols : List Column) (user_message : String) (m₀ : String)
    (k : Nat) (a : AttemptRec) (msg : String)
    (h1 : (chatLoop create₀ dataset_path cols user_message m₀).2[k]? = some a)
    (h2 : chatCall create₀ dataset_path cols user_message a.idx a.model a.tokens
        = CallResult.err msg)
    (h3 : contains429or50 msg = true)
    (h4 : ¬(contains402 msg = true ∧ a.idx < token_attempts.length - 1)) :
    (a.model ≠ geminiFree →
      (∀ p : Nat × Nat, token_attempts.enum[k + 1]? = some p →
        (chatLoop create₀ dataset_path cols user_message m₀).2[k + 1]?
          = some ⟨p.1, geminiFree, p.2⟩)
      ∧ (token_attempts.enum[k + 1]? = none →
          (chatLoop create₀ dataset_path cols user_message m₀).1
            = LoopResult.exhausted geminiFree
          ∧ (chatLoop create₀ dataset_path cols user_message m₀).2.length = k + 1
          ∧ chat_with_llm none create₀ sandbox dataset_path cols user_message m₀
            = (none, failedMsg)))
    ∧ (a.model = geminiFree →
        (chatLoop create₀ dataset_path cols user_message m₀).1
          = LoopResult.raised msg a.model
        ∧ (chatLoop create₀ dataset_path cols user_message m₀).2.length = k + 1
        ∧ chat_with_llm none create₀ sandbox dataset_path cols user_message m₀
          = (none, msg)) := by
  have h1' : (runAttempts (chatCall create₀ dataset_path cols user_message)
      token_attempts.enum m₀).2[k]? = some a := h1
  have spec := runAttempts_spec (chatCall create₀ dataset_path cols user_message)
    token_attempts.enum m₀ k a h1'
  constructor
  · intro hm
    have hb := (spec.2.2 msg h2).2.1 ⟨h4, h3, hm⟩
    refine ⟨hb.1, ?_⟩
    intro hnone
    have hres := hb.2 hnone
    refine ⟨hres.1, hres.2, ?_⟩
    have hl : (chatLoop create₀ dataset_path cols user_message m₀).1
        = LoopResult.exhausted geminiFree := hres.1
    simp [chat_with_llm, hl]
  · intro hm
    have hres := (spec.2.2 msg h2).2.2
      ⟨h4, fun hx => absurd hm hx.2⟩
    refine ⟨hres.1, hres.2, ?_⟩
    have hl : (chatLoop create₀ dataset_path cols user_message m₀).1
        = LoopResult.raised msg a.model := hres.1
    simp [chat_with_llm, hl]

theorem C4_rate_limit_switch_witness :
    (chatLoop (fun _ _ _ _ _ => CallResult.err "429 Too Many Requests") "d.csv" [] "q"
        "m").2[0]? = some ⟨0, "m", 2000⟩
    ∧ contains429or50 "429 Too Many Requests" = true
    ∧ ¬(contains402 "429 Too Many Requests" = true ∧ (0 : Nat) < token_attempts.length - 1)
    ∧ (chatLoop (fun _ _ _ _ _ => CallResult.err "429 Too Many Requests") "d.csv" [] "q"
        "m").2[0 + 1]? = some ⟨1, geminiFree, 500⟩ := by
  have h := C4_rate_limit_switch (fun _ _ _ _ _ => CallResult.err "429 Too Many Requests")
    (fun _ => ExecOutcome.raises "x") "d.csv" [] "q" "m" 0 ⟨0, "m", 2000⟩
    "429 Too Many Requests" (by decide) (by decide) (by decide) (by decide)
  refine ⟨by decide, by decide, by decide, ?_⟩
  have := (h.1 (by decide)).1 (1, 500) (by decide)
  exact this

theorem extractCore_eq_generic_of_no_python {t : List Char}
    (hnopy : ¬∃ i j, openerCIAt t i ∧ fenceAt t j ∧ i + pyFence.length ≤ j) :
    extractCore t = genericExtract t := by
  cases hfi : findSubIdx (lowerChars pyFence) (lowerChars t) with
  | none => simp only [extractCore, hfi]
  | some p =>
    cases hfk : findSubIdx fence (t.drop (p + pyFence.length)) with
    | none => simp only [extractCore, hfi, hfk]
    | some q =>
      exfalso
      apply hnopy
      refine ⟨p, p + pyFence.length + q, findSubIdx_some_isPrefixOf hfi, ?_, by omega⟩
      have h := findSubIdx_some_isPrefixOf hfk
      rw [List.drop_drop] at h
      exact h

theorem genericExtract_eq_fallback_of_no_block {t : List Char}
    (hnogen : ¬∃ j j2, fenceAt t j ∧ fenceAt t j2 ∧ j + fence.length ≤ j2) :
    genericExtract t = fallbackExtract t := by
  cases hfj : findSubIdx fence t with
  | none => simp only [genericExtract, hfj]
  | some p =>
    cases hfk : findSubIdx fence (t.drop (p + fence.length)) with
    | none => simp only [genericExtract, hfj, hfk]
    | some q =>
      exfalso
      apply hnogen
      refine ⟨p, p + fence.length + q, findSubIdx_some_isPrefixOf hfj, ?_, by omega⟩
      have h := findSubIdx_some_isPrefixOf hfk
      rw [List.drop_drop] at h
      exact h

/-- C5 (amended): `extract_python_code` returns, for a text containing a
block opened by `³python` matched case-insensitively (the regex carries
`re.IGNORECASE`) and closed by `³`, the stripped contents of the first
such block; otherwise, for a text with a generic `³ … ³` block, the
stripped contents of the first such block; otherwise the text with every
`³python` and then every `³` occurrence removed, stripped.  Firstness is
expressed by the minimality hypotheses on the opener index and on the
closer offset. -/
theorem C5_extract_first_block (t : List Char) :
    (∀ i k, openerCIAt t i → (∀ i2, i2 < i → ¬openerCIAt t i2) →
      fenceAt (t.drop (i + pyFence.length)) k →
      (∀ k2, k2 < k → ¬fenceAt (t.drop (i + pyFence.length)) k2) →
      extractCore t = pyStrip ((t.drop (i + pyFence.length)).take k))
    ∧ ((¬∃ i j, openerCIAt t i ∧ fenceAt t j ∧ i + pyFence.length ≤ j) →
        ∀ j k, fenceAt t j → (∀ j2, j2 < j → ¬fenceAt t j2) →
          fenceAt (t.drop (j + fence.length)) k →
          (∀ k2, k2 < k → ¬fenceAt (t.drop (j + fence.length)) k2) →
          extractCore t = pyStrip ((t.drop (j + fence.length)).take k))
    ∧ ((¬∃ i j, openerCIAt t i ∧ fenceAt t j ∧ i + pyFence.length ≤ j) →
        (¬∃ j j2, fenceAt t j ∧ fenceAt t j2 ∧ j + fence.length ≤ j2) →
        extractCore t = pyStrip (pyReplace fence [] (pyReplace pyFence [] t))) := by
  refine ⟨?_, ?_, ?_⟩
  · intro i k hio himin hck hkmin
    have hfi : findSubIdx (lowerChars pyFence) (lowerChars t) = some i :=
      findSubIdx_eq_some_of hio
        (fun j hj => bool_eq_false_of_ne_true (himin j hj))
    have hfk : findSubIdx fence (t.drop (i + pyFence.length)) = some k :=
      findSubIdx_eq_some_of hck
        (fun j hj => bool_eq_false_of_ne_true (hkmin j hj))
    simp only [extractCore, hfi, hfk]
  · intro hnopy j k hfj hjmin hck hkmin
    rw [extractCore_eq_generic_of_no_python hnopy]
    have hfj2 : findSubIdx fence t = some j :=
      findSubIdx_eq_some_of hfj
        (fun j2 hj2 => bool_eq_false_of_ne_true (hjmin j2 hj2))
    have hfk2 : findSubIdx fence (t.drop (j + fence.length)) = some k :=
      findSubIdx_eq_some_of hck
        (fun k2 hk2 => bool_eq_false_of_ne_true (hkmin k2 hk2))
    simp only [genericExtract, hfj2, hfk2]
  · intro hnopy hnogen
    rw [extractCore_eq_generic_of_no_python hnopy,
      genericExtract_eq_fallback_of_no_block hnogen]
    rfl

/-- C5 counterexample: on `³PYTHON\nx\n³` the text has no case-sensitive
`³python` opener, and its first generic fenced block has stripped
contents `PYTHON\nx`, which is what the claim then requires; but the
regex is case-insensitive, so the code extracts the `³PYTHON` block and
returns `x`. -/
theorem C5_counterexample :
    occursIn pyFence "\x60\x60\x60PYTHON\nx\n\x60\x60\x60".toList = false
    ∧ findSubIdx fence "\x60\x60\x60PYTHON\nx\n\x60\x60\x60".toList = some 0
    ∧ findSubIdx fence
        ("\x60\x60\x60PYTHON\nx\n\x60\x60\x60".toList.drop (0 + fence.length)) = some 9
    ∧ pyStrip (("\x60\x60\x60PYTHON\nx\n\x60\x60\x60".toList.drop (0 + fence.length)).take 9)
        = "PYTHON\nx".toList
    ∧ extractCore "\x60\x60\x60PYTHON\nx\n\x60\x60\x60".toList = "x".toList
    ∧ "x".toList ≠ "PYTHON\nx".toList := by
  refine ⟨by decide, by decide, by decide, by decide, by decide, by decide⟩

theorem C5_extract_first_block_witness :
    (openerCIAt "\x60\x60\x60python\nprint(1)\n\x60\x60\x60".toList 0
      ∧ extractCore "\x60\x60\x60python\nprint(1)\n\x60\x60\x60".toList
        = pyStrip (("\x60\x60\x60python\nprint(1)\n\x60\x60\x60".toList.drop
            (0 + pyFence.length)).take 10))
    ∧ (fenceAt "see \x60\x60\x60 code \x60\x60\x60 done".toList 4
      ∧ extractCore "see \x60\x60\x60 code \x60\x60\x60 done".toList
        = pyStrip (("see \x60\x60\x60 code \x60\x60\x60 done".toList.drop
            (4 + fence.length)).take 6))
    ∧ extractCore "no fences here".toList
        = pyStrip (pyReplace fence [] (pyReplace pyFence [] "no fences here".toList)) := by
  have h1 := (C5_extract_first_block "\x60\x60\x60python\nprint(1)\n\x60\x60\x60".toList).1
    0 10 (by decide) (fun i2 h => absurd h (Nat.not_lt_zero i2)) (by decide) (by decide)
  have hnopy2 : ¬∃ i j, openerCIAt "see \x60\x60\x60 code \x60\x60\x60 done".toList i
      ∧ fenceAt "see \x60\x60\x60 code \x60\x60\x60 done".toList j
      ∧ i + pyFence.length ≤ j := by
    rintro ⟨i, j, hi, _, _⟩
    exact absurd (occursIn_iff_exists.2 ⟨i, hi⟩) (by decide)
  have h2 := (C5_extract_first_block "see \x60\x60\x60 code \x60\x60\x60 done".toList).2.1
    hnopy2 4 6 (by decide) (by decide) (by decide) (by decide)
  have hnopy3 : ¬∃ i j, openerCIAt "no fences here".toList i
      ∧ fenceAt "no fences here".toList j ∧ i + pyFence.length ≤ j := by
    rintro ⟨i, j, hi, _, _⟩
    exact absurd (occursIn_iff_exists.2 ⟨i, hi⟩) (by decide)
  have hnogen3 : ¬∃ j j2, fenceAt "no fences here".toList j
      ∧ fenceAt "no fences here".toList j2 ∧ j + fence.length ≤ j2 := by
    rintro ⟨j, j2, hj, _, _⟩
    exact absurd (occursIn_iff_exists.2 ⟨j, hj⟩) (by decide)
  have h3 := (C5_extract_first_block "no fences here".toList).2.2 hnopy3 hnogen3
  exact ⟨⟨by decide, h1⟩, ⟨by decide, h2⟩, h3⟩

/-- C9: `extract_python_code` is idempotent: its output contains no `³`
fence marker and is already stripped, so applying it to its own output
returns the output unchanged; and on an input without `³` it returns the
input merely stripped. -/
theorem C9_extract_idempotent (s : String) :
    occursIn fence (extract_python_code s).toList = false
    ∧ pyStrip (extract_python_code s).toList = (extract_python_code s).toList
    ∧ extract_python_code (extract_python_code s) = extract_python_code s
    ∧ (occursIn fence s.toList = false →
        (extract_python_code s).toList = pyStrip s.toList) := by
  have htl : ∀ l : List Char, (String.mk l).toList = l := fun _ => rfl
  refine ⟨?_, ?_, ?_, ?_⟩
  · rw [extract_python_code, htl]
    exact extractCore_fence_free s.toList
  · rw [extract_python_code, htl]
    exact extractCore_stripped s.toList
  · show String.mk (extractCore (String.mk (extractCore s.toList)).toList)
      = String.mk (extractCore s.toList)
    rw [htl, extractCore_idem]
  · intro h
    rw [extract_python_code, htl]
    exact extractCore_of_fence_free h

theorem C9_extract_idempotent_witness :
    occursIn fence "  print(42)  ".toList = false
    ∧ (extract_python_code "  print(42)  ").toList = pyStrip "  print(42)  ".toList
    ∧ extract_python_code (extract_python_code "  print(42)  ")
        = extract_python_code "  print(42)  " := by
  have h := C9_extract_idempotent "  print(42)  "
  exact ⟨by decide, h.2.2.2 (by decide), h.2.2.1⟩

/-- C8 counterexample: a single-column dataframe whose first non-null
entry stringifies to `a\nb` produces a columns block of two lines, so the
system prompt does not contain exactly one line per column. -/
theorem C8_counterexample :
    (splitLinesC (columns_info [⟨"c", "object", [some "a\nb"]⟩])).length = 2
    ∧ ([(⟨"c", "object", [some "a\nb"]⟩ : Column)]).length = 1
    ∧ splitLinesC (columns_info [⟨"c", "object", [some "a\nb"]⟩])
        ≠ [colLine ⟨"c", "object", [some "a\nb"]⟩] := by
  refine ⟨by decide, by decide, by decide⟩

/-- C8 (amended): for a dataframe with at least one column, whose
rendered column lines contain no newline character (true whenever the
column names, dtypes and truncated samples are newline-free), the system
prompt contains the columns block, and that block splits on newlines
into exactly one line per column, in column order, each line carrying
the column's name, its dtype, and its sample — the first non-null entry
truncated to at most 50 characters, or `N/A` when the column has no
non-null entry. -/
theorem C8_prompt_columns (dataset_path : String) (cols : List Column)
    (hne : cols ≠ [])
    (hnl : ∀ c ∈ cols, ('\n' : Char) ∉ colLine c) :
    splitLinesC (columns_info cols) = cols.map colLine
    ∧ (∃ pre post, system_prompt dataset_path cols = pre ++ columns_info cols ++ post)
    ∧ ∀ c ∈ cols,
        (∃ pre post, colLine c = pre ++ c.name.toList ++ post)
        ∧ (∃ pre post, colLine c = pre ++ c.dtype.toList ++ post)
        ∧ (∃ pre post, colLine c = pre ++ (sample_val c).take 50 ++ post)
        ∧ ((sample_val c).take 50).length ≤ 50
        ∧ (match (c.values.filterMap id).head? with
            | some v => sample_val c = v.toList
            | none => sample_val c = "N/A".toList) := by
  refine ⟨?_, ?_, ?_⟩
  · apply splitLinesC_joinLines
    · intro h
      exact hne (List.map_eq_nil_iff.1 h)
    · intro x hx
      obtain ⟨c, hc, rfl⟩ := List.mem_map.1 hx
      exact hnl c hc
  · refine ⟨sysPromptA.toList ++ dataset_path.toList ++ sysPromptB.toList,
      sysPromptC.toList ++ dataset_path.toList ++ sysPromptD.toList, ?_⟩
    simp [system_prompt, List.append_assoc]
  · intro c hc
    refine ⟨?_, ?_, ?_, ?_, ?_⟩
    · refine ⟨"- ".toList, " (".toList ++ c.dtype.toList ++ ") | Sample: \x27".toList
        ++ (sample_val c).take 50 ++ "...\x27".toList, ?_⟩
      simp [colLine, List.append_assoc]
    · refine ⟨"- ".toList ++ c.name.toList ++ " (".toList,
        ") | Sample: \x27".toList ++ (sample_val c).take 50 ++ "...\x27".toList, ?_⟩
      simp [colLine, List.append_assoc]
    · refine ⟨"- ".toList ++ c.name.toList ++ " (".toList ++ c.dtype.toList
        ++ ") | Sample: \x27".toList, "...\x27".toList, ?_⟩
      simp [colLine, List.append_assoc]
    · rw [List.length_take]
      exact Nat.min_le_left _ _
    · cases hv : (c.values.filterMap id).head? with
      | some v => simp [sample_val, hv]
      | none => simp [sample_val, hv]

theorem C8_prompt_columns_witness :
    (([⟨"age", "int64", [none, some "37"]⟩] : List Column) ≠ [])
    ∧ (∀ c ∈ ([⟨"age", "int64", [none, some "37"]⟩] : List Column),
        ('\n' : Char) ∉ colLine c)
    ∧ splitLinesC (columns_info [⟨"age", "int64", [none, some "37"]⟩])
        = ([⟨"age", "int64", [none, some "37"]⟩] : List Column).map colLine
    ∧ sample_val ⟨"age", "int64", [none, some "37"]⟩ = "37".toList := by
  have h := C8_prompt_columns "d.csv" [⟨"age", "int64", [none, some "37"]⟩]
    (by decide) (by decide)
  exact ⟨by decide, by decide, h.1, by decide⟩
